import Mathlib

/-!
Verification of the RAG pipeline core (`rag_service.py` and its provider
boundary) against its specification.

The text of a document is modelled as a `List Char`, matching Python's
per-character string slicing. External providers (embedding, vector store,
generation) are modelled as argument functions returning `Except String α`
when the corresponding call can raise an exception, so that the
orchestrator's exception handling at the boundary is observable.
-/

namespace RAG

/-- `max_iterations = max(10, (text_length // max(1, chunk_size - overlap)) + 10)`
from `RAGService._chunk_text` (line 39). Python `//` on non-negative ints is
`Nat` division, and `max(1, chunk_size - overlap)` agrees with the `Nat`
truncated subtraction form for `overlap ≥ 0`. -/
def maxIterations (textLength chunkSize overlap : Nat) : Nat :=
  max 10 (textLength / max 1 (chunkSize - overlap) + 10)

/-- The `while` loop of `RAGService._chunk_text` (lines 42-60), returning the
`(start, end)` span of each emitted chunk slice `text[start:end]`.  The fuel
argument is exactly the number of loop iterations still allowed by the
`iterations < max_iterations` guard; the `break` paths (which do not increment
`iterations` in the source) stop without consuming fuel, just as in the source
they stop without re-testing the guard. -/
def chunkLoop (textLength chunkSize overlap : Nat) : Nat → Nat → List (Nat × Nat)
  | _, 0 => []
  | start, fuel + 1 =>
    if start < textLength then
      -- end = min(start + chunk_size, text_length); the chunk text[start:end] is emitted
      let e := min (start + chunkSize) textLength
      -- next_start = max(0, end - overlap), which is Nat subtraction
      let nextStart := e - overlap
      if nextStart ≤ start then
        -- if end >= text_length: break (after having appended the chunk)
        if textLength ≤ e then [(start, e)]
        -- otherwise move to end (no overlap for this step)
        else (start, e) :: chunkLoop textLength chunkSize overlap e fuel
      else (start, e) :: chunkLoop textLength chunkSize overlap nextStart fuel
    else []

/-- The spans of the chunks produced by `RAGService._chunk_text`: the guard
`if not text: return []` (line 31), then the loop started at cursor 0 with the
defensive iteration cap. -/
def chunkSpans (textLength chunkSize overlap : Nat) : List (Nat × Nat) :=
  if textLength = 0 then []
  else chunkLoop textLength chunkSize overlap 0 (maxIterations textLength chunkSize overlap)

/-- Python slice `text[s:e]` for `0 ≤ s ≤ e ≤ len(text)`. -/
def sliceTxt (text : List Char) (s e : Nat) : List Char :=
  (text.drop s).take (e - s)

/-- `RAGService._chunk_text(text, chunk_size, overlap)`: the loop appends the
slice `text[start:end]` at each iteration; here the loop is factored through
the emitted `(start, end)` spans and the slices are taken by `map`. -/
def chunkText (text : List Char) (chunkSize overlap : Nat) : List (List Char) :=
  (chunkSpans text.length chunkSize overlap).map (fun sp => sliceTxt text sp.1 sp.2)

/-- Python `"sep".join(parts)`. -/
def joinSep (sep : String) : List String → String
  | [] => ""
  | [p] => p
  | p :: ps => p ++ sep ++ joinSep sep ps

/-- First value stored under key `k` in a string-valued metadata mapping
(Python `dict` access; keys of a `dict` are unique, so "first" is exact). -/
def lookupStr : List (String × String) → String → Option String
  | [], _ => none
  | kv :: rest, k => if kv.1 = k then some kv.2 else lookupStr rest k

/-- Python `metadata.get(k, d)` for a string-valued metadata mapping. -/
def mget (m : List (String × String)) (k d : String) : String :=
  (lookupStr m k).getD d

/-- `RAGService._combine_text_for_embedding(chunk, metadata)` (lines 70-107):
extract the recognized fields with their `dict.get` fallback chains, append one
`"Label: value"` line per truthy field (for strings, truthy = non-empty), then
the `"Medical Notes: "` line, and join with `"\n"`. -/
def combineTextForEmbedding (chunk : String) (metadata : List (String × String)) : String :=
  let patientName := mget metadata "patient_name" (mget metadata "patient" "")
  let patientId := mget metadata "patient_id" (mget metadata "id" "")
  let patientAge := mget metadata "age" ""
  let patientGender := mget metadata "gender" ""
  let dateTime := mget metadata "date_time" (mget metadata "visit_date" (mget metadata "date" ""))
  let doctor := mget metadata "doctor" ""
  let src := mget metadata "source" ""
  let parts : List String :=
    (if patientName ≠ "" then ["Patient Name: " ++ patientName] else []) ++
    ((if patientId ≠ "" then ["Patient ID: " ++ patientId] else []) ++
    ((if patientAge ≠ "" then ["Age: " ++ patientAge] else []) ++
    ((if patientGender ≠ "" then ["Gender: " ++ patientGender] else []) ++
    ((if dateTime ≠ "" then ["Date/Time: " ++ dateTime] else []) ++
    ((if doctor ≠ "" then ["Doctor: " ++ doctor] else []) ++
    ((if src ≠ "" then ["Source: " ++ src] else []) ++
    ["Medical Notes: " ++ chunk]))))))
  joinSep "\n" parts

/-- The recognized metadata fields in the fixed label order of the spec
(Name, ID, Age, Gender, Date/Time, Doctor, Source), each paired with its
extracted value.  Used only to state the rendering rule of spec section 4.2. -/
def fieldValuesC4 (metadata : List (String × String)) : List (String × String) :=
  [("Patient Name: ", mget metadata "patient_name" (mget metadata "patient" "")),
   ("Patient ID: ", mget metadata "patient_id" (mget metadata "id" "")),
   ("Age: ", mget metadata "age" ""),
   ("Gender: ", mget metadata "gender" ""),
   ("Date/Time: ", mget metadata "date_time"
      (mget metadata "visit_date" (mget metadata "date" ""))),
   ("Doctor: ", mget metadata "doctor" ""),
   ("Source: ", mget metadata "source" "")]

/-- The rendering rule exactly as the spec words it: one `"Label: value"` line
per recognized field that is present and non-empty, in the fixed label order,
absent or empty fields omitted entirely, always ending with the
`"Medical Notes:"` line carrying the chunk text. -/
def composeSpecC4 (chunk : String) (metadata : List (String × String)) : String :=
  joinSep "\n"
    (((fieldValuesC4 metadata).filterMap
        (fun lv => if lv.2 = "" then none else some (lv.1 ++ lv.2))) ++
      ["Medical Notes: " ++ chunk])

/-- A retrieval match as consumed by `RAGService.query` (lines 165-185): the
Pinecone match `id` and its `metadata`.  `metadata = none` models a match whose
`metadata` entry is absent or not a dict (`doc.get("metadata", {})` followed by
the `isinstance(meta, dict)` test). -/
structure MatchDoc where
  id : String
  metadata : Option (List (String × String))

/-- The bracketed attribution pieces of `RAGService.query` (lines 169-177):
`meta.get(k)` is truthy exactly when key `k` maps to a non-empty string. -/
def metadataInfo (meta : List (String × String)) : List String :=
  (if mget meta "patient_name" "" ≠ "" then ["Patient: " ++ mget meta "patient_name" ""] else []) ++
  (if mget meta "patient_id" "" ≠ "" then ["Patient ID: " ++ mget meta "patient_id" ""] else []) ++
  (if mget meta "date_time" "" ≠ "" then ["Date: " ++ mget meta "date_time" ""] else []) ++
  (if mget meta "doctor" "" ≠ "" then ["Doctor: " ++ mget meta "doctor" ""] else [])

/-- The context entry `RAGService.query` builds for one match, or `none` when
the match is skipped (`metadata` missing / not a dict, or `"content"` key
absent). -/
def usableEntry (doc : MatchDoc) : Option String :=
  match doc.metadata with
  | none => none
  | some meta =>
    match lookupStr meta "content" with
    | none => none
    | some content =>
      let info := metadataInfo meta
      some (if info.isEmpty then content
            else "[" ++ joinSep ", " info ++ "] " ++ content)

/-- The `for doc in similar_docs` accumulation of `context_parts` in
`RAGService.query` (lines 164-185). -/
def contextPartsLoop : List MatchDoc → List String
  | [] => []
  | doc :: rest =>
    match usableEntry doc with
    | some entry => entry :: contextPartsLoop rest
    | none => contextPartsLoop rest

/-- A metadata value as stored in a chunk's vector record: the caller's string
values, plus the `int` values `chunk_index` and `total_chunks`. -/
inductive MVal where
  | str : String → MVal
  | nat : Nat → MVal
deriving DecidableEq

/-- Python `dict` assignment `m[k] = v`: replace the value at an existing key,
otherwise append the new key. -/
def dictInsert : List (String × MVal) → String → MVal → List (String × MVal)
  | [], k, v => [(k, v)]
  | kv :: rest, k, v => if kv.1 = k then (k, v) :: rest else kv :: dictInsert rest k v

/-- First value stored under key `k` in an `MVal`-valued mapping. -/
def lookupM : List (String × MVal) → String → Option MVal
  | [], _ => none
  | kv :: rest, k => if kv.1 = k then some kv.2 else lookupM rest k

/-- `chunk_metadata` for the `i`-th of `total` chunks in
`RAGService.add_document` (lines 129-132): a copy of the caller metadata, then
the reserved keys assigned over it. -/
def buildChunkMetadata (callerMeta : List (String × MVal)) (chunk : String)
    (i total : Nat) : List (String × MVal) :=
  dictInsert (dictInsert (dictInsert callerMeta "content" (.str chunk))
    "chunk_index" (.nat i)) "total_chunks" (.nat total)

/-- A vector record handed to the vector store's upsert (lines 135-139);
`V` is the (opaque) type of embedding vectors. -/
structure VectorRecord (V : Type) where
  id : String
  values : V
  metadata : List (String × MVal)

/-- The external providers the orchestrator calls, with `Except` modelling the
calls that can raise; `deleteVectors` never raises (it catches internally and
returns a bool, `PineconeService.delete_vectors` lines 139-152). -/
structure Providers (V : Type) where
  embed : String → Except String V
  upsert : List (VectorRecord V) → Except String Bool
  querySimilar : V → Nat → Except String (List MatchDoc)
  generate : String → String → Except String String
  deleteVectors : List String → Bool

/-- The `for i, chunk in enumerate(chunks)` loop of `RAGService.add_document`
(lines 117-140), building `vector_data`: for the `i`-th chunk, embed the
metadata-combined text (an embedding exception aborts the whole loop), draw a
fresh id, and attach the chunk metadata (caller metadata copy with the
reserved keys assigned over it). -/
def buildVectorData {V : Type} (p : Providers V) (ids : Nat → String)
    (metadata : List (String × String)) (total : Nat) :
    List (Nat × List Char) → Except String (List (VectorRecord V))
  | [] => .ok []
  | ic :: rest =>
    match p.embed (combineTextForEmbedding (String.mk ic.2) metadata) with
    | .error e => .error e
    | .ok emb =>
      match buildVectorData p ids metadata total rest with
      | .error e => .error e
      | .ok recs =>
        .ok ({ id := ids ic.1, values := emb,
               metadata := buildChunkMetadata
                 (metadata.map (fun kv => (kv.1, MVal.str kv.2)))
                 (String.mk ic.2) ic.1 total } :: recs)

/-- The body of the `try` block of `RAGService.add_document` (lines 110-149):
chunk with the default `chunk_size=1000, overlap=100`, build one vector record
per chunk, return `True` without upserting when there is nothing to store,
otherwise return the upsert's result.  An `.error` outcome models an uncaught
exception inside the `try`. -/
def addDocumentE {V : Type} (p : Providers V) (ids : Nat → String) (content : String)
    (metadata : List (String × String)) : Except String Bool :=
  let chunks := chunkText content.data 1000 100
  match buildVectorData p ids metadata chunks.length chunks.enum with
  | .error e => .error e
  | .ok vectorData =>
    if vectorData.isEmpty then .ok true
    else p.upsert vectorData

/-- `RAGService.add_document`: the `try`/`except` boundary — any exception is
caught and converted to `False` (lines 151-154). -/
def addDocument {V : Type} (p : Providers V) (ids : Nat → String) (content : String)
    (metadata : List (String × String)) : Bool :=
  match addDocumentE p ids content metadata with
  | .ok b => b
  | .error _ => false

/-- The fixed phrase returned when retrieval produced no usable context
(line 193). -/
def noInfoMsg : String := "I could not find this information in the patient's medical records."

/-- The fixed phrase returned when an exception reaches the `except` handler of
`RAGService.query` (line 200). -/
def errMsg : String := "Sorry, an error occurred."

/-- The body of the `try` block of `RAGService.query` (lines 157-195): embed
the query, retrieve, assemble the context by joining the usable entries with a
blank line, then either call generation on a truthy (non-empty) context or
answer with the fixed no-information phrase. -/
def queryE {V : Type} (p : Providers V) (queryText : String) (topK : Nat) :
    Except String String :=
  match p.embed queryText with
  | .error e => .error e
  | .ok emb =>
    match p.querySimilar emb topK with
    | .error e => .error e
    | .ok docs =>
      let context := joinSep "\n\n" (contextPartsLoop docs)
      if context ≠ "" then p.generate context queryText
      else .ok noInfoMsg

/-- `RAGService.query`: the `try`/`except` boundary — any exception is caught
and converted to the fixed error phrase (lines 197-200). -/
def ragQuery {V : Type} (p : Providers V) (queryText : String) (topK : Nat) : String :=
  match queryE p queryText topK with
  | .ok s => s
  | .error _ => errMsg

/-- `RAGService.update_document` (lines 202-204): delete by id (result
discarded), then re-ingest via `add_document`. -/
def updateDocument {V : Type} (p : Providers V) (ids : Nat → String) (docId : String)
    (content : String) (metadata : List (String × String)) : Bool :=
  let _ := p.deleteVectors [docId]
  addDocument p ids content metadata

/-! ### Helper lemmas about the chunk loop -/

theorem chunkLoop_length_le (L cs ov : Nat) :
    ∀ fuel start, (chunkLoop L cs ov start fuel).length ≤ fuel := by
  intro fuel
  induction fuel with
  | zero => intro start; simp [chunkLoop]
  | succ f ih =>
    intro start
    by_cases h : start < L
    · simp only [chunkLoop, if_pos h]
      split_ifs with h1 h2
      · simp
      · simp only [List.length_cons]
        exact Nat.succ_le_succ (ih _)
      · simp only [List.length_cons]
        exact Nat.succ_le_succ (ih _)
    · simp [chunkLoop, h]

theorem chunkLoop_mem (L cs ov : Nat) :
    ∀ fuel start sp, sp ∈ chunkLoop L cs ov start fuel →
      sp.1 < L ∧ sp.2 = min (sp.1 + cs) L := by
  intro fuel
  induction fuel with
  | zero => intro start sp hsp; simp [chunkLoop] at hsp
  | succ f ih =>
    intro start sp hsp
    by_cases h : start < L
    · simp only [chunkLoop, if_pos h] at hsp
      split_ifs at hsp with h1 h2
      · simp only [List.mem_singleton] at hsp
        subst hsp
        exact ⟨h, rfl⟩
      · rcases List.mem_cons.mp hsp with h3 | h3
        · subst h3; exact ⟨h, rfl⟩
        · exact ih _ sp h3
      · rcases List.mem_cons.mp hsp with h3 | h3
        · subst h3; exact ⟨h, rfl⟩
        · exact ih _ sp h3
    · simp [chunkLoop, h] at hsp

theorem chunkSpans_mem (L cs ov : Nat) (sp : Nat × Nat)
    (hsp : sp ∈ chunkSpans L cs ov) : sp.1 < L ∧ sp.2 = min (sp.1 + cs) L := by
  unfold chunkSpans at hsp
  split at hsp
  · simp at hsp
  · exact chunkLoop_mem L cs ov _ _ sp hsp

theorem sliceTxt_length (text : List Char) (s e : Nat) (he : e ≤ text.length) :
    (sliceTxt text s e).length = e - s := by
  simp only [sliceTxt, List.length_take, List.length_drop]
  omega

theorem map_length_chunkText (text : List Char) (cs ov : Nat) :
    (chunkText text cs ov).map List.length =
      (chunkSpans text.length cs ov).map (fun sp => sp.2 - sp.1) := by
  unfold chunkText
  rw [List.map_map]
  refine List.map_congr_left ?_
  intro sp hsp
  have h := chunkSpans_mem text.length cs ov sp hsp
  exact sliceTxt_length text sp.1 sp.2 (by omega)

theorem length_chunkText (text : List Char) (cs ov : Nat) :
    (chunkText text cs ov).length = (chunkSpans text.length cs ov).length := by
  simp [chunkText]

theorem chunkLoop_succ_eq (L cs ov start f : Nat) (h : start < L) :
    chunkLoop L cs ov start (f + 1) =
      (start, min (start + cs) L) ::
        (if min (start + cs) L - ov ≤ start then
           (if L ≤ min (start + cs) L then []
            else chunkLoop L cs ov (min (start + cs) L) f)
         else chunkLoop L cs ov (min (start + cs) L - ov) f) := by
  simp only [chunkLoop, if_pos h]
  split_ifs with h1 h2 <;> rfl

theorem chunkLoop_cover (L cs ov : Nat) (hcs : 0 < cs) :
    ∀ fuel start, start < L → L ≤ start + cs + max 1 (cs - ov) * fuel →
      ∀ i, start ≤ i → i < L →
        ∃ sp ∈ chunkLoop L cs ov start (fuel + 1), sp.1 ≤ i ∧ i < sp.2 := by
  intro fuel
  induction fuel with
  | zero =>
    intro start hsL hfuel i hsi hiL
    rw [chunkLoop_succ_eq L cs ov start 0 hsL]
    refine ⟨(start, min (start + cs) L), List.mem_cons_self _ _, hsi, ?_⟩
    simp only [Nat.mul_zero, Nat.add_zero] at hfuel
    omega
  | succ f ih =>
    intro start hsL hfuel i hsi hiL
    rw [chunkLoop_succ_eq L cs ov start (f + 1) hsL]
    by_cases hie : i < min (start + cs) L
    · exact ⟨(start, min (start + cs) L), List.mem_cons_self _ _, hsi, hie⟩
    · push_neg at hie
      have he : min (start + cs) L = start + cs := by omega
      have heL : start + cs < L := by omega
      rw [he]
      rw [Nat.mul_succ] at hfuel
      by_cases hstall : start + cs - ov ≤ start
      · rw [if_pos hstall, if_neg (by omega)]
        have hrec := ih (start + cs) heL ?_ i (by omega) hiL
        · obtain ⟨sp, hmem, hsp⟩ := hrec
          exact ⟨sp, List.mem_cons_of_mem _ hmem, hsp⟩
        · generalize hg : max 1 (cs - ov) * f = P at hfuel ⊢
          omega
      · rw [if_neg hstall]
        have hrec := ih (start + cs - ov) (by omega) ?_ i (by omega) hiL
        · obtain ⟨sp, hmem, hsp⟩ := hrec
          exact ⟨sp, List.mem_cons_of_mem _ hmem, hsp⟩
        · generalize hg : max 1 (cs - ov) * f = P at hfuel ⊢
          omega

theorem chunkSpans_cover (L cs ov : Nat) (hcs : 0 < cs) :
    ∀ i, i < L → ∃ sp ∈ chunkSpans L cs ov, sp.1 ≤ i ∧ i < sp.2 := by
  intro i hiL
  have hL : L ≠ 0 := by omega
  unfold chunkSpans
  rw [if_neg hL]
  have hmax : maxIterations L cs ov = (maxIterations L cs ov - 1) + 1 := by
    unfold maxIterations; omega
  rw [hmax]
  refine chunkLoop_cover L cs ov hcs (maxIterations L cs ov - 1) 0 (by omega) ?_ i
    (Nat.zero_le i) hiL
  -- Fuel sufficiency: the defensive cap is always at least the number of
  -- iterations the loop needs to reach the end of the text.
  have hdm := Nat.div_add_mod L (max 1 (cs - ov))
  have hmlt : L % (max 1 (cs - ov)) < max 1 (cs - ov) :=
    Nat.mod_lt L (by omega)
  have hcap : L / max 1 (cs - ov) + 9 ≤ maxIterations L cs ov - 1 := by
    unfold maxIterations; omega
  have hmul : max 1 (cs - ov) * (L / max 1 (cs - ov) + 9) ≤
      max 1 (cs - ov) * (maxIterations L cs ov - 1) :=
    Nat.mul_le_mul_left _ hcap
  have hexp : max 1 (cs - ov) * (L / max 1 (cs - ov) + 9) =
      max 1 (cs - ov) * (L / max 1 (cs - ov)) + max 1 (cs - ov) * 9 := by
    ring
  generalize hg1 : max 1 (cs - ov) * (L / max 1 (cs - ov)) = A at hexp hdm
  generalize hg2 : max 1 (cs - ov) * (maxIterations L cs ov - 1) = B at hmul ⊢
  generalize hg3 : max 1 (cs - ov) * (L / max 1 (cs - ov) + 9) = C at hexp hmul
  omega

/-! ### Helper lemmas about context assembly and metadata maps -/

theorem contextPartsLoop_eq_filterMap (docs : List MatchDoc) :
    contextPartsLoop docs = docs.filterMap usableEntry := by
  induction docs with
  | nil => rfl
  | cons d ds ih =>
    simp only [contextPartsLoop, List.filterMap_cons]
    cases usableEntry d <;> simp [ih]

theorem contextPartsLoop_nil (docs : List MatchDoc)
    (h : ∀ d ∈ docs, usableEntry d = none) : contextPartsLoop docs = [] := by
  induction docs with
  | nil => rfl
  | cons d ds ih =>
    simp only [contextPartsLoop]
    rw [h d (List.mem_cons_self d ds)]
    exact ih fun d' hd' => h d' (List.mem_cons_of_mem d hd')

theorem lookupM_dictInsert_self (m : List (String × MVal)) (k : String) (v : MVal) :
    lookupM (dictInsert m k v) k = some v := by
  induction m with
  | nil => simp [dictInsert, lookupM]
  | cons kv rest ih =>
    by_cases h : kv.1 = k
    · simp [dictInsert, h, lookupM]
    · simp [dictInsert, h, lookupM, ih]

theorem lookupM_dictInsert_ne (m : List (String × MVal)) (k : String) (v : MVal)
    (k' : String) (h : k' ≠ k) : lookupM (dictInsert m k v) k' = lookupM m k' := by
  induction m with
  | nil => simp [dictInsert, lookupM, Ne.symm h]
  | cons kv rest ih =>
    by_cases hk : kv.1 = k
    · subst hk
      simp [dictInsert, lookupM, Ne.symm h]
    · simp only [dictInsert, if_neg hk, lookupM]
      by_cases hk' : kv.1 = k'
      · simp [hk']
      · simp [hk', ih]

/-! ### Claim C1 -/

/-- C1 as stated is false: chunking a text of length 2400 with
`chunk_size=1000, overlap=100` does not give 3 chunks of lengths
`[1000, 1000, 400]` at starts `[0, 900, 1800]`; after emitting the chunk
`[1800, 2400)` the cursor still advances to `2400 - 100 = 2300`, so a fourth
chunk `[2300, 2400)` is emitted. -/
theorem c1_counterexample :
    ¬ ((chunkText (List.replicate 2400 'a') 1000 100).map List.length =
         [1000, 1000, 400] ∧
       (chunkSpans 2400 1000 100).map Prod.fst = [0, 900, 1800]) := by
  intro ⟨h1, _⟩
  rw [map_length_chunkText, List.length_replicate] at h1
  have h4 : (chunkSpans 2400 1000 100).map (fun sp => sp.2 - sp.1) =
      [1000, 1000, 600, 100] := by decide
  rw [h4] at h1
  simp at h1

/-- C1 (amended): for every text of length 2400, chunking with
`chunk_size=1000, overlap=100` produces exactly 4 chunks of lengths
`[1000, 1000, 600, 100]` whose start offsets are `[0, 900, 1800, 2300]`. -/
theorem c1_chunk2400 (text : List Char) (h : text.length = 2400) :
    (chunkText text 1000 100).map List.length = [1000, 1000, 600, 100] ∧
    (chunkSpans 2400 1000 100).map Prod.fst = [0, 900, 1800, 2300] := by
  constructor
  · rw [map_length_chunkText, h]
    decide
  · decide

theorem c1_chunk2400_witness :
    (chunkText (List.replicate 2400 'a') 1000 100).map List.length =
      [1000, 1000, 600, 100] ∧
    (chunkSpans 2400 1000 100).map Prod.fst = [0, 900, 1800, 2300] :=
  c1_chunk2400 (List.replicate 2400 'a') (by rw [List.length_replicate])

/-! ### Claim C2 -/

/-- C2: the chunk loop performs at most
`max(10, text_length // max(1, chunk_size - overlap) + 10)` iterations (each
iteration emits exactly one chunk, so the iteration count is the number of
chunks); in particular with `chunk_size=10, overlap=15` on a text of length 50
it finishes within 16 iterations. -/
theorem c2_iteration_bound (text : List Char) (cs ov : Nat) (_hcs : 0 < cs) :
    (chunkText text cs ov).length ≤ maxIterations text.length cs ov ∧
    (text.length = 50 → (chunkText text 10 15).length ≤ 16) := by
  constructor
  · rw [length_chunkText]
    unfold chunkSpans
    split
    · simp [maxIterations]
    · exact chunkLoop_length_le _ _ _ _ _
  · intro h50
    rw [length_chunkText, h50]
    decide

theorem c2_iteration_bound_witness :
    (chunkText (List.replicate 50 'a') 10 15).length ≤
      maxIterations (List.replicate 50 'a').length 10 15 ∧
    ((List.replicate 50 'a').length = 50 →
      (chunkText (List.replicate 50 'a') 10 15).length ≤ 16) :=
  c2_iteration_bound (List.replicate 50 'a') 10 15 (by decide)

/-! ### Claim C3 -/

/-- C3: for `chunk_size > 0` the emitted chunk spans cover `[0, len(text))`
exactly — every position of the text lies in some span, and every span is a
non-empty sub-range of `[0, len(text))` — and every emitted chunk has length at
most `chunk_size`. -/
theorem c3_cover_and_size (text : List Char) (cs ov : Nat) (hcs : 0 < cs) :
    (∀ i, i < text.length →
       ∃ sp ∈ chunkSpans text.length cs ov, sp.1 ≤ i ∧ i < sp.2) ∧
    (∀ sp ∈ chunkSpans text.length cs ov, sp.1 < sp.2 ∧ sp.2 ≤ text.length) ∧
    (∀ c ∈ chunkText text cs ov, c.length ≤ cs) := by
  refine ⟨chunkSpans_cover text.length cs ov hcs, ?_, ?_⟩
  · intro sp hsp
    have h := chunkSpans_mem text.length cs ov sp hsp
    omega
  · intro c hc
    obtain ⟨sp, hsp, hslice⟩ := List.mem_map.mp hc
    have h := chunkSpans_mem text.length cs ov sp hsp
    rw [← hslice, sliceTxt_length text sp.1 sp.2 (by omega)]
    omega

theorem c3_cover_and_size_witness :
    (∀ i, i < (['a', 'b', 'c'] : List Char).length →
       ∃ sp ∈ chunkSpans (['a', 'b', 'c'] : List Char).length 2 1,
         sp.1 ≤ i ∧ i < sp.2) ∧
    (∀ sp ∈ chunkSpans (['a', 'b', 'c'] : List Char).length 2 1,
       sp.1 < sp.2 ∧ sp.2 ≤ (['a', 'b', 'c'] : List Char).length) ∧
    (∀ c ∈ chunkText ['a', 'b', 'c'] 2 1, c.length ≤ 2) :=
  c3_cover_and_size ['a', 'b', 'c'] 2 1 (by decide)

/-! ### Claim C4 -/

theorem filterMap_render (fields : List (String × String)) (tail : List String) :
    fields.foldr (fun lv acc => (if lv.2 ≠ "" then [lv.1 ++ lv.2] else []) ++ acc) tail =
      (fields.filterMap (fun lv => if lv.2 = "" then none else some (lv.1 ++ lv.2))) ++
        tail := by
  induction fields with
  | nil => simp
  | cons lv rest ih =>
    simp only [List.foldr_cons, List.filterMap_cons]
    by_cases h : lv.2 = ""
    · rw [if_neg (fun hne => hne h), if_pos h]
      exact ih
    · rw [if_pos h, if_neg h]
      simp only [List.singleton_append]
      exact congrArg (List.cons (lv.1 ++ lv.2)) ih

theorem combine_eq_composeSpec (chunk : String) (metadata : List (String × String)) :
    combineTextForEmbedding chunk metadata = composeSpecC4 chunk metadata := by
  unfold combineTextForEmbedding composeSpecC4
  rw [← filterMap_render]
  rfl

theorem combine_janedoe_example :
    combineTextForEmbedding "fever and cough"
        [("patient_name", "Jane Doe"), ("patient_id", "P1")] =
      "Patient Name: Jane Doe\nPatient ID: P1\nMedical Notes: fever and cough" := by
  simp [combineTextForEmbedding, mget, lookupStr, joinSep]

/-- C4: for every chunk and metadata mapping, the compositor renders exactly
one `"Label: value"` line per recognized field that is present and non-empty,
in the fixed label order Name, ID, Age, Gender, Date/Time, Doctor, Source,
omitting absent or empty fields, always ending with the `"Medical Notes:"`
line carrying the chunk text; on the example metadata
`{patient_name: "Jane Doe", patient_id: "P1"}` with chunk "fever and cough"
the result names Jane Doe and the chunk and has no "Age:" line. -/
theorem c4_compose (chunk : String) (metadata : List (String × String)) :
    combineTextForEmbedding chunk metadata = composeSpecC4 chunk metadata ∧
    combineTextForEmbedding "fever and cough"
        [("patient_name", "Jane Doe"), ("patient_id", "P1")] =
      "Patient Name: Jane Doe\nPatient ID: P1\nMedical Notes: fever and cough" :=
  ⟨combine_eq_composeSpec chunk metadata, combine_janedoe_example⟩

/-! ### Claim C5 -/

/-- C5: context assembly keeps exactly the matches with a usable `"content"`
entry, in input order (it is a `filterMap`, hence no re-sorting), joined by a
single blank-line separator; with 3 matches of which the first and third are
usable the context is exactly those two entries in order, separated by one
blank line. -/
theorem c5_assembly (d1 d2 d3 : MatchDoc) (a c : String)
    (h1 : usableEntry d1 = some a) (h2 : usableEntry d2 = none)
    (h3 : usableEntry d3 = some c) :
    (∀ docs : List MatchDoc, contextPartsLoop docs = docs.filterMap usableEntry) ∧
    joinSep "\n\n" (contextPartsLoop [d1, d2, d3]) = a ++ "\n\n" ++ c := by
  refine ⟨contextPartsLoop_eq_filterMap, ?_⟩
  simp only [contextPartsLoop, h1, h2, h3]
  rfl

theorem c5_assembly_witness :
    (∀ docs : List MatchDoc, contextPartsLoop docs = docs.filterMap usableEntry) ∧
    joinSep "\n\n"
        (contextPartsLoop
          [⟨"m1", some [("content", "first chunk")]⟩, ⟨"m2", none⟩,
           ⟨"m3", some [("content", "third chunk")]⟩]) =
      "first chunk" ++ "\n\n" ++ "third chunk" :=
  c5_assembly ⟨"m1", some [("content", "first chunk")]⟩ ⟨"m2", none⟩
    ⟨"m3", some [("content", "third chunk")]⟩ "first chunk" "third chunk"
    rfl rfl rfl

/-! ### Claim C6 -/

/-- C6: when the embedding call succeeds and retrieval yields only matches
without a usable `"content"` entry (including no matches at all), `query`
returns the fixed no-information phrase, whatever the generation provider is —
so the answer never comes from a generation call on the empty context. -/
theorem c6_no_usable_context (V : Type) (embedF : String → Except String V)
    (upsertF : List (VectorRecord V) → Except String Bool)
    (qsF : V → Nat → Except String (List MatchDoc))
    (genF : String → String → Except String String)
    (delF : List String → Bool) (qt : String) (k : Nat) (v : V)
    (docs : List MatchDoc) (hE : embedF qt = .ok v) (hQ : qsF v k = .ok docs)
    (hU : ∀ d ∈ docs, usableEntry d = none) :
    ragQuery ⟨embedF, upsertF, qsF, genF, delF⟩ qt k = noInfoMsg := by
  have hparts : contextPartsLoop docs = [] := contextPartsLoop_nil docs hU
  unfold ragQuery queryE
  dsimp only
  rw [hE]
  dsimp only
  rw [hQ]
  dsimp only
  rw [hparts]
  simp [joinSep]

theorem c6_no_usable_context_witness :
    ragQuery (V := Unit)
        ⟨fun _ => .ok (), fun _ => .ok true, fun _ _ => .ok [⟨"m1", none⟩],
         fun _ _ => .ok "generated", fun _ => true⟩
        "what happened" 3 = noInfoMsg :=
  c6_no_usable_context Unit (fun _ => .ok ()) (fun _ => .ok true)
    (fun _ _ => .ok [⟨"m1", none⟩]) (fun _ _ => .ok "generated") (fun _ => true)
    "what happened" 3 () [⟨"m1", none⟩] rfl rfl (by simp [usableEntry])

/-! ### Claim C7 -/

/-- C7: an exception escaping the `try` body of `add_document` or `query`
(modelled by the `.error` outcome of the corresponding `Except` computation)
is caught at the orchestrator boundary: `add_document` returns `False`,
`query` returns the fixed "Sorry, an error occurred." phrase, and both
functions are total — no exception reaches their caller. -/
theorem c7_boundary (V : Type) (p : Providers V) (ids : Nat → String)
    (content : String) (metadata : List (String × String)) (qt : String)
    (k : Nat) (e e' : String)
    (hA : addDocumentE p ids content metadata = .error e)
    (hQ : queryE p qt k = .error e') :
    addDocument p ids content metadata = false ∧ ragQuery p qt k = errMsg := by
  unfold addDocument ragQuery
  rw [hA, hQ]
  exact ⟨rfl, rfl⟩

/-- Providers whose every fallible call raises. -/
def failProviders : Providers Unit where
  embed := fun _ => .error "boom"
  upsert := fun _ => .error "boom"
  querySimilar := fun _ _ => .error "boom"
  generate := fun _ _ => .error "boom"
  deleteVectors := fun _ => true

/-- A deterministic stand-in for `uuid.uuid4()`. -/
def ids0 : Nat → String := fun n => "id-" ++ toString n

theorem c7_boundary_witness :
    addDocument failProviders ids0 "x" [] = false ∧
    ragQuery failProviders "q" 3 = errMsg :=
  c7_boundary Unit failProviders ids0 "x" [] "q" 3 "boom" "boom"
    (by simp [addDocumentE, buildVectorData, failProviders, chunkText, chunkSpans,
              maxIterations, chunkLoop, sliceTxt])
    rfl

/-! ### Claim C8 -/

/-- C8: chunking the empty text yields the empty chunk list for every
`chunk_size` and `overlap`, and ingesting empty content returns success for
every provider — in particular also for providers whose embedding and upsert
calls always raise, so neither is invoked on the empty document. -/
theorem c8_empty_input (cs ov : Nat) (V : Type) (p : Providers V)
    (ids : Nat → String) (metadata : List (String × String)) :
    chunkText [] cs ov = [] ∧ addDocument p ids "" metadata = true := by
  constructor
  · rfl
  · rfl

/-! ### Claim C9 -/

/-- C9: the chunk metadata built for the `i`-th of `total` chunks always maps
the reserved keys `"content"`, `"chunk_index"` and `"total_chunks"` to the raw
chunk text, `i` and `total` — for every caller metadata, including one that
already binds those keys, whose values are silently overwritten. -/
theorem c9_reserved_keys (callerMeta : List (String × MVal)) (chunk : String)
    (i total : Nat) :
    lookupM (buildChunkMetadata callerMeta chunk i total) "content" =
        some (.str chunk) ∧
    lookupM (buildChunkMetadata callerMeta chunk i total) "chunk_index" =
        some (.nat i) ∧
    lookupM (buildChunkMetadata callerMeta chunk i total) "total_chunks" =
        some (.nat total) := by
  unfold buildChunkMetadata
  refine ⟨?_, ?_, ?_⟩
  · rw [lookupM_dictInsert_ne _ _ _ _ (by decide),
        lookupM_dictInsert_ne _ _ _ _ (by decide), lookupM_dictInsert_self]
  · rw [lookupM_dictInsert_ne _ _ _ _ (by decide), lookupM_dictInsert_self]
  · rw [lookupM_dictInsert_self]

/-! ### Claim C10 -/

theorem buildVectorData_eqEmbed {V : Type} (p q : Providers V)
    (h : p.embed = q.embed) (ids : Nat → String)
    (metadata : List (String × String)) (total : Nat) :
    ∀ l, buildVectorData p ids metadata total l =
      buildVectorData q ids metadata total l := by
  intro l
  induction l with
  | nil => rfl
  | cons ic rest ih => simp only [buildVectorData, h, ih]

theorem addDocument_eqProviders {V : Type} (p q : Providers V)
    (hE : p.embed = q.embed) (hU : p.upsert = q.upsert) (ids : Nat → String)
    (content : String) (metadata : List (String × String)) :
    addDocument p ids content metadata = addDocument q ids content metadata := by
  unfold addDocument addDocumentE
  dsimp only
  rw [buildVectorData_eqEmbed p q hE, hU]

/-- C10: `update_document` returns exactly what the subsequent `add_document`
returns; the boolean result of `delete_vectors` is discarded, so with a
failing delete and a succeeding re-ingest it still returns `True`. -/
theorem c10_update_discards_delete (V : Type) (p : Providers V)
    (ids : Nat → String) (docId content : String)
    (metadata : List (String × String))
    (hAdd : addDocument p ids content metadata = true) :
    (∀ d : List String → Bool,
       updateDocument ⟨p.embed, p.upsert, p.querySimilar, p.generate, d⟩
           ids docId content metadata =
         addDocument p ids content metadata) ∧
    updateDocument ⟨p.embed, p.upsert, p.querySimilar, p.generate, fun _ => false⟩
        ids docId content metadata = true := by
  have hgen : ∀ d : List String → Bool,
      updateDocument ⟨p.embed, p.upsert, p.querySimilar, p.generate, d⟩
          ids docId content metadata =
        addDocument p ids content metadata := by
    intro d
    show addDocument ⟨p.embed, p.upsert, p.querySimilar, p.generate, d⟩
        ids content metadata = addDocument p ids content metadata
    exact addDocument_eqProviders
      ⟨p.embed, p.upsert, p.querySimilar, p.generate, d⟩ p rfl rfl
      ids content metadata
  exact ⟨hgen, (hgen (fun _ => false)).trans hAdd⟩

theorem c10_update_discards_delete_witness :
    (∀ d : List String → Bool,
       updateDocument
           ⟨failProviders.embed, failProviders.upsert, failProviders.querySimilar,
            failProviders.generate, d⟩ ids0 "doc-1" "" [] =
         addDocument failProviders ids0 "" []) ∧
    updateDocument
        ⟨failProviders.embed, failProviders.upsert, failProviders.querySimilar,
         failProviders.generate, fun _ => false⟩ ids0 "doc-1" "" [] = true :=
  c10_update_discards_delete Unit failProviders ids0 "doc-1" "" [] rfl

end RAG
